import Mathlib

/-!
Verification development for the Barnes-Hut quadtree n-body simulator
(`quadtree.py`).  The Python source is shallowly embedded below: machine
floats become real numbers, `np.arctan2` becomes `Complex.arg` (which has
the same range `(-π, π]` and the same convention `arctan2 0 0 = 0`), the
process-terminating "unreachable" branches become `Option.none`, and the
recursive tree construction and the explicit-stack traversal are given a
fuel parameter because the Python recursion is not structurally
terminating (coincident bodies recurse forever).
-/

namespace NBody

open Real

/-- Modelled from the spec: `Body` is an external collaborator (its module is
not part of the verified source).  It exposes a 2-D position vector, a 2-D
velocity vector and a scalar mass; an update operation advances position and
velocity once per step. -/
structure Body where
  pos : ℝ × ℝ
  vel : ℝ × ℝ
  m : ℝ

/-- Modelled from the spec: the consumed vector-length utility is the
trivial Euclidean norm of a 2-D real vector. -/
noncomputable def vector_len (v : ℝ × ℝ) : ℝ :=
  Real.sqrt (v.1 ^ 2 + v.2 ^ 2)

/-- Modelled from the spec: the gravitational constant `G` consumed from an
external constants module; the standard SI value is used. -/
noncomputable def big_g : ℝ := 6.674e-11

/-- Embedding of `np.arctan2 y x`: the angle of the vector `(x, y)` in the
half-open range `(-π, π]`, with `arctan2 0 0 = 0`.  `Complex.arg` has
exactly this semantics. -/
noncomputable def arctan2 (y x : ℝ) : ℝ :=
  Complex.arg ⟨x, y⟩

/-- The four possible sub-quadrants of a quadrant (`class Quad`). -/
inductive Quad where
  | NW
  | NE
  | SW
  | SE
deriving DecidableEq, Repr

/-- `Node._find_quadrant`: classify a body position relative to a quadrant
center by the angle of the offset vector.  The source's print-and-quit
fall-through branch is modelled by `none`. -/
noncomputable def find_quadrant (b_pos q_pos : ℝ × ℝ) : Option Quad :=
  let vec : ℝ × ℝ := (b_pos.1 - q_pos.1, b_pos.2 - q_pos.2)
  let direc := arctan2 vec.2 vec.1
  let pi2 := Real.pi * 0.5
  if 0 < direc ∧ direc ≤ pi2 then some Quad.NE
  else if pi2 < direc ∧ direc ≤ Real.pi then some Quad.NW
  else if -pi2 < direc ∧ direc ≤ 0 then some Quad.SW
  else if -Real.pi < direc ∧ direc ≤ -pi2 then some Quad.SE
  else none

/-- A node (quadrant) in the quadtree: center `pos`, width `w`, height `h`,
center of mass `cm`, `total_mass`, and the list of child nodes. -/
inductive Node where
  | mk (pos : ℝ × ℝ) (w : ℝ) (h : ℝ) (cm : ℝ × ℝ) (total_mass : ℝ)
      (children : List Node) : Node

def Node.pos : Node → ℝ × ℝ
  | .mk p _ _ _ _ _ => p

def Node.w : Node → ℝ
  | .mk _ w _ _ _ _ => w

def Node.h : Node → ℝ
  | .mk _ _ h _ _ _ => h

def Node.cm : Node → ℝ × ℝ
  | .mk _ _ _ c _ _ => c

def Node.total_mass : Node → ℝ
  | .mk _ _ _ _ t _ => t

def Node.children : Node → List Node
  | .mk _ _ _ _ _ cs => cs

@[simp] theorem Node.pos_mk (p : ℝ × ℝ) (w h : ℝ) (c : ℝ × ℝ) (t : ℝ)
    (cs : List Node) : (Node.mk p w h c t cs).pos = p := rfl

@[simp] theorem Node.w_mk (p : ℝ × ℝ) (w h : ℝ) (c : ℝ × ℝ) (t : ℝ)
    (cs : List Node) : (Node.mk p w h c t cs).w = w := rfl

@[simp] theorem Node.h_mk (p : ℝ × ℝ) (w h : ℝ) (c : ℝ × ℝ) (t : ℝ)
    (cs : List Node) : (Node.mk p w h c t cs).h = h := rfl

@[simp] theorem Node.cm_mk (p : ℝ × ℝ) (w h : ℝ) (c : ℝ × ℝ) (t : ℝ)
    (cs : List Node) : (Node.mk p w h c t cs).cm = c := rfl

@[simp] theorem Node.total_mass_mk (p : ℝ × ℝ) (w h : ℝ) (c : ℝ × ℝ) (t : ℝ)
    (cs : List Node) : (Node.mk p w h c t cs).total_mass = t := rfl

@[simp] theorem Node.children_mk (p : ℝ × ℝ) (w h : ℝ) (c : ℝ × ℝ) (t : ℝ)
    (cs : List Node) : (Node.mk p w h c t cs).children = cs := rfl

/-- The classification loop of `Node._split_bodies`: pair every body with
its quadrant, in list order; `none` if any classification falls through
(the source would terminate the process there). -/
noncomputable def classifyAll (q_pos : ℝ × ℝ) : List Body → Option (List (Quad × Body))
  | [] => some []
  | b :: bs =>
    match find_quadrant b.pos q_pos, classifyAll q_pos bs with
    | some q, some rest => some ((q, b) :: rest)
    | _, _ => none

/-- `Node.__init__` together with `_create_child_nodes`, `_split_bodies`,
`_calc_cm` and `_create_node`: build a node from its center, width, height
and body list.  `total_mass` is always the sum of the input masses; an
empty list gives a childless node with `cm = (0, 0)`; a single body gives a
childless node whose `cm` is that body's position; otherwise the center of
mass is the mass-weighted average and a child is created for each of the
four quadrants `NW, NE, SW, SE` (the dictionary iteration order of the
source) from the bodies classified into it.  `fuel` bounds the recursion
depth; the Python recursion has no such bound and diverges on coincident
bodies. -/
noncomputable def buildNode : ℕ → ℝ × ℝ → ℝ → ℝ → List Body → Option Node
  | 0, _, _, _, _ => none
  | fuel + 1, pos, w, h, bodies =>
    let total_mass := (bodies.map Body.m).sum
    match bodies with
    | [] => some (.mk pos w h (0, 0) total_mass [])
    | [b] => some (.mk pos w h b.pos total_mass [])
    | _ =>
      match classifyAll pos bodies with
      | none => none
      | some pairs =>
        let prod := (bodies.map fun b => (b.m * b.pos.1, b.m * b.pos.2)).sum
        let cm : ℝ × ℝ := (1 / total_mass * prod.1, 1 / total_mass * prod.2)
        let group := fun q => (pairs.filter fun p => p.1 = q).map Prod.snd
        match buildNode fuel (pos.1 - w / 2, pos.2 + h / 2) (w / 2) (h / 2) (group Quad.NW),
            buildNode fuel (pos.1 + w / 2, pos.2 + h / 2) (w / 2) (h / 2) (group Quad.NE),
            buildNode fuel (pos.1 - w / 2, pos.2 - h / 2) (w / 2) (h / 2) (group Quad.SW),
            buildNode fuel (pos.1 + w / 2, pos.2 - h / 2) (w / 2) (h / 2) (group Quad.SE) with
        | some nw, some ne, some sw, some se =>
          some (.mk pos w h cm total_mass [nw, ne, sw, se])
        | _, _, _, _ => none

/-- The quadtree: time step, acceptance threshold, softening parameter,
body list and root node. -/
structure QuadTree where
  dt : ℝ
  limit : ℝ
  eps : ℝ
  bodies : List Body
  root : Node

/-- `max(vector_len(b.pos) for b in bodies)`: Python's `max` over a
nonempty sequence (the empty case raises in Python and is given the junk
value `0` here; `buildQuadTree` never reaches it). -/
noncomputable def maxDist : List Body → ℝ
  | [] => 0
  | b :: bs => bs.foldl (fun a x => max a (vector_len x.pos)) (vector_len b.pos)

/-- `QuadTree.__init__`: the root node sits at the origin with width and
height both equal to the maximum distance from the origin to any body, and
is built once from the full body list.  `none` when the body list is empty
(Python's `max` raises) or construction runs out of fuel. -/
noncomputable def buildQuadTree (bodies : List Body) (dt limit eps : ℝ)
    (fuel : ℕ) : Option QuadTree :=
  match bodies with
  | [] => none
  | b :: bs =>
    let dist := maxDist (b :: bs)
    (buildNode fuel (0, 0) dist dist (b :: bs)).map
      fun root => ⟨dt, limit, eps, b :: bs, root⟩

/-- The explicit-stack loop of `QuadTree.step_forward` for one body: pop a
node, take `size` as the mean of its width and height and `dist` as the
length of `vec = node.cm - body.pos`; skip the node when `dist = 0`; when
`size / dist < limit` add the Plummer-softened point-mass contribution
(magnitude `G·M·dist/(dist² + eps²)^(3/2)`, decomposed through the angle of
`vec`) and do not descend; otherwise push all children.  The Python stack
pops from the tail, so pushed children are consed in reverse.  `fuel`
bounds the number of iterations. -/
noncomputable def traverse (limit eps : ℝ) (b_pos : ℝ × ℝ) :
    ℕ → List Node → ℝ × ℝ → Option (ℝ × ℝ)
  | _, [], acc => some acc
  | 0, _ :: _, _ => none
  | fuel + 1, node :: rest, acc =>
    let size := (node.w + node.h) / 2
    let vec : ℝ × ℝ := (node.cm.1 - b_pos.1, node.cm.2 - b_pos.2)
    let dist := vector_len vec
    if dist = 0 then traverse limit eps b_pos fuel rest acc
    else if size / dist < limit then
      let angle := arctan2 vec.2 vec.1
      let denom := (dist * dist + eps * eps) ^ ((3 : ℝ) / 2)
      let mag := big_g * node.total_mass * dist / denom
      traverse limit eps b_pos fuel rest
        (acc.1 + Real.cos angle * mag, acc.2 + Real.sin angle * mag)
    else traverse limit eps b_pos fuel (node.children.reverse ++ rest) acc

/-- Modelled from the spec: `Body`'s update operation (external to the
verified source) advances velocity and then position by explicit Euler
integration with the accumulated acceleration; the frame index does not
enter the rule. -/
def eulerUpdate (b : Body) (acc : ℝ × ℝ) (dt : ℝ) (_n : ℕ) : Body :=
  let v : ℝ × ℝ := (b.vel.1 + acc.1 * dt, b.vel.2 + acc.2 * dt)
  ⟨(b.pos.1 + v.1 * dt, b.pos.2 + v.2 * dt), v, b.m⟩

/-- The per-body loop of `QuadTree.step_forward`: every body starts from a
zero accumulator and the singleton stack holding the root, then its state
is advanced with the accumulated acceleration.  Parameterized by the
external update operation `upd`. -/
noncomputable def stepBodies (upd : Body → ℝ × ℝ → ℝ → ℕ → Body)
    (limit eps : ℝ) (root : Node) (dt : ℝ) (n : ℕ) (fuel : ℕ) :
    List Body → Option (List Body)
  | [] => some []
  | b :: bs =>
    match traverse limit eps b.pos fuel [root] (0, 0),
        stepBodies upd limit eps root dt n fuel bs with
    | some acc, some rest => some (upd b acc dt n :: rest)
    | _, _ => none

/-- `QuadTree.step_forward`: advance every body one step using the tree
held in `root`; the tree itself is left untouched. -/
noncomputable def step_forward (upd : Body → ℝ × ℝ → ℝ → ℕ → Body)
    (fuel : ℕ) (qt : QuadTree) (n : ℕ) : Option QuadTree :=
  (stepBodies upd qt.limit qt.eps qt.root qt.dt n fuel qt.bodies).map
    fun bs => { qt with bodies := bs }

/-! ### Basic facts about the embedded geometry helpers -/

theorem vector_len_nonneg (v : ℝ × ℝ) : 0 ≤ vector_len v :=
  Real.sqrt_nonneg _

theorem vector_len_eq_abs (x y : ℝ) :
    vector_len (x, y) = Complex.abs ⟨x, y⟩ := by
  rw [Complex.abs_apply, Complex.normSq_mk]
  show Real.sqrt (x ^ 2 + y ^ 2) = Real.sqrt (x * x + y * y)
  rw [sq, sq]

theorem vector_len_eq_zero_iff (x y : ℝ) :
    vector_len (x, y) = 0 ↔ x = 0 ∧ y = 0 := by
  show Real.sqrt (x ^ 2 + y ^ 2) = 0 ↔ _
  rw [Real.sqrt_eq_zero (by positivity)]
  constructor
  · intro h
    constructor <;> nlinarith [sq_nonneg x, sq_nonneg y]
  · rintro ⟨rfl, rfl⟩
    norm_num

theorem vector_len_one_zero : vector_len ((1 : ℝ), (0 : ℝ)) = 1 := by
  show Real.sqrt (1 ^ 2 + 0 ^ 2) = 1
  rw [show ((1 : ℝ) ^ 2 + 0 ^ 2) = 1 by norm_num, Real.sqrt_one]

theorem vector_len_two_zero : vector_len ((2 : ℝ), (0 : ℝ)) = 2 := by
  show Real.sqrt (2 ^ 2 + 0 ^ 2) = 2
  rw [show ((2 : ℝ) ^ 2 + 0 ^ 2) = 2 ^ 2 by norm_num,
    Real.sqrt_sq (by norm_num : (0 : ℝ) ≤ 2)]

theorem vector_len_zero_zero : vector_len ((0 : ℝ), (0 : ℝ)) = 0 := by
  show Real.sqrt (0 ^ 2 + 0 ^ 2) = 0
  rw [show ((0 : ℝ) ^ 2 + 0 ^ 2) = 0 by norm_num, Real.sqrt_zero]

theorem vector_len_zero : vector_len (0 : ℝ × ℝ) = 0 :=
  vector_len_zero_zero

theorem abs_fst_le_vector_len (v : ℝ × ℝ) : |v.1| ≤ vector_len v := by
  rw [← Real.sqrt_sq_eq_abs]
  exact Real.sqrt_le_sqrt (by nlinarith [sq_nonneg v.2])

theorem abs_snd_le_vector_len (v : ℝ × ℝ) : |v.2| ≤ vector_len v := by
  rw [← Real.sqrt_sq_eq_abs]
  exact Real.sqrt_le_sqrt (by nlinarith [sq_nonneg v.1])

/-- `find_quadrant` with the boundary `np.pi * 0.5` rewritten to `π / 2`
and the let-bindings inlined. -/
theorem find_quadrant_spec (b q : ℝ × ℝ) :
    find_quadrant b q =
      (if 0 < arctan2 (b.2 - q.2) (b.1 - q.1) ∧
          arctan2 (b.2 - q.2) (b.1 - q.1) ≤ Real.pi / 2 then some Quad.NE
       else if Real.pi / 2 < arctan2 (b.2 - q.2) (b.1 - q.1) ∧
          arctan2 (b.2 - q.2) (b.1 - q.1) ≤ Real.pi then some Quad.NW
       else if -(Real.pi / 2) < arctan2 (b.2 - q.2) (b.1 - q.1) ∧
          arctan2 (b.2 - q.2) (b.1 - q.1) ≤ 0 then some Quad.SW
       else if -Real.pi < arctan2 (b.2 - q.2) (b.1 - q.1) ∧
          arctan2 (b.2 - q.2) (b.1 - q.1) ≤ -(Real.pi / 2) then some Quad.SE
       else none) := by
  have h : Real.pi * 0.5 = Real.pi / 2 := by
    rw [show (0.5 : ℝ) = 1 / 2 by norm_num, mul_one_div]
  simp only [find_quadrant, h]

/-- Sign characterization: a strictly-north body on or east of the axis is
classified `NE`. -/
theorem find_quadrant_NE_of {b q : ℝ × ℝ} (hx : 0 ≤ b.1 - q.1)
    (hy : 0 < b.2 - q.2) : find_quadrant b q = some Quad.NE := by
  have h0 : 0 ≤ arctan2 (b.2 - q.2) (b.1 - q.1) :=
    Complex.arg_nonneg_iff.mpr hy.le
  have hne : arctan2 (b.2 - q.2) (b.1 - q.1) ≠ 0 := by
    intro h
    have h2 := Complex.arg_eq_zero_iff.mp h
    exact absurd h2.2 (by simpa using hy.ne.symm)
  have hle : arctan2 (b.2 - q.2) (b.1 - q.1) ≤ Real.pi / 2 :=
    Complex.arg_le_pi_div_two_iff.mpr (Or.inl hx)
  rw [find_quadrant_spec, if_pos ⟨lt_of_le_of_ne h0 (Ne.symm hne), hle⟩]

/-- Sign characterization: a strictly-south body on or west of the axis is
classified `SE`. -/
theorem find_quadrant_SE_of {b q : ℝ × ℝ} (hx : b.1 - q.1 ≤ 0)
    (hy : b.2 - q.2 < 0) : find_quadrant b q = some Quad.SE := by
  have hπ := Real.pi_pos
  have hneg : arctan2 (b.2 - q.2) (b.1 - q.1) < 0 :=
    Complex.arg_neg_iff.mpr hy
  have hle2 : arctan2 (b.2 - q.2) (b.1 - q.1) ≤ -(Real.pi / 2) := by
    rcases lt_or_eq_of_le hx with hlt | heq
    · have hnot : ¬ -(Real.pi / 2) ≤ Complex.arg ⟨b.1 - q.1, b.2 - q.2⟩ := by
        rw [Complex.neg_pi_div_two_le_arg_iff]
        push_neg
        exact ⟨hlt, hy⟩
      exact (not_le.mp hnot).le
    · exact le_of_eq
        (Complex.arg_eq_neg_pi_div_two_iff.mpr ⟨heq, hy⟩)
  have hgt : -Real.pi < arctan2 (b.2 - q.2) (b.1 - q.1) :=
    Complex.neg_pi_lt_arg _
  rw [find_quadrant_spec,
    if_neg (by intro h; linarith [h.1]),
    if_neg (by intro h; linarith [h.1]),
    if_neg (by intro h; linarith [h.1]),
    if_pos ⟨hgt, hle2⟩]

/-- **C3.** For every 2-D offset vector (body position minus node center)
the quadrant classification returns exactly one of the four quadrants, the
returned quadrant corresponds to the half-open angle range
`(0, π/2] → NE`, `(π/2, π] → NW`, `(−π/2, 0] → SW`, `(−π, −π/2] → SE` of
`θ = arctan2(v.y, v.x)`, and the fall-through branch that terminates the
process is never reached (this holds for all inputs, in particular all
finite nonzero offsets). -/
theorem find_quadrant_total (bp qp : ℝ × ℝ) :
    ∃ q : Quad, find_quadrant bp qp = some q ∧
      (q = Quad.NE ↔
        arctan2 (bp.2 - qp.2) (bp.1 - qp.1) ∈ Set.Ioc 0 (Real.pi / 2)) ∧
      (q = Quad.NW ↔
        arctan2 (bp.2 - qp.2) (bp.1 - qp.1) ∈ Set.Ioc (Real.pi / 2) Real.pi) ∧
      (q = Quad.SW ↔
        arctan2 (bp.2 - qp.2) (bp.1 - qp.1) ∈ Set.Ioc (-(Real.pi / 2)) 0) ∧
      (q = Quad.SE ↔
        arctan2 (bp.2 - qp.2) (bp.1 - qp.1) ∈
          Set.Ioc (-Real.pi) (-(Real.pi / 2))) := by
  have hπ := Real.pi_pos
  have hmem : -Real.pi < arctan2 (bp.2 - qp.2) (bp.1 - qp.1) ∧
      arctan2 (bp.2 - qp.2) (bp.1 - qp.1) ≤ Real.pi :=
    ⟨Complex.neg_pi_lt_arg _, Complex.arg_le_pi _⟩
  rw [find_quadrant_spec]
  by_cases hA : 0 < arctan2 (bp.2 - qp.2) (bp.1 - qp.1) ∧
      arctan2 (bp.2 - qp.2) (bp.1 - qp.1) ≤ Real.pi / 2
  · refine ⟨Quad.NE, by rw [if_pos hA],
      iff_of_true rfl (Set.mem_Ioc.mpr hA), ?_, ?_, ?_⟩
    · exact iff_of_false (by decide)
        (by rw [Set.mem_Ioc]; rintro ⟨h1, h2⟩; linarith [hA.2])
    · exact iff_of_false (by decide)
        (by rw [Set.mem_Ioc]; rintro ⟨h1, h2⟩; linarith [hA.1])
    · exact iff_of_false (by decide)
        (by rw [Set.mem_Ioc]; rintro ⟨h1, h2⟩; linarith [hA.1])
  · by_cases hB : Real.pi / 2 < arctan2 (bp.2 - qp.2) (bp.1 - qp.1) ∧
        arctan2 (bp.2 - qp.2) (bp.1 - qp.1) ≤ Real.pi
    · refine ⟨Quad.NW, by rw [if_neg hA, if_pos hB],
        ?_, iff_of_true rfl (Set.mem_Ioc.mpr hB), ?_, ?_⟩
      · exact iff_of_false (by decide)
          (by rw [Set.mem_Ioc]; rintro ⟨h1, h2⟩; linarith [hB.1])
      · exact iff_of_false (by decide)
          (by rw [Set.mem_Ioc]; rintro ⟨h1, h2⟩; linarith [hB.1])
      · exact iff_of_false (by decide)
          (by rw [Set.mem_Ioc]; rintro ⟨h1, h2⟩; linarith [hB.1])
    · by_cases hC : -(Real.pi / 2) < arctan2 (bp.2 - qp.2) (bp.1 - qp.1) ∧
          arctan2 (bp.2 - qp.2) (bp.1 - qp.1) ≤ 0
      · refine ⟨Quad.SW, by rw [if_neg hA, if_neg hB, if_pos hC],
          ?_, ?_, iff_of_true rfl (Set.mem_Ioc.mpr hC), ?_⟩
        · exact iff_of_false (by decide)
            (by rw [Set.mem_Ioc]; rintro ⟨h1, h2⟩; linarith [hC.2])
        · exact iff_of_false (by decide)
            (by rw [Set.mem_Ioc]; rintro ⟨h1, h2⟩; linarith [hC.2])
        · exact iff_of_false (by decide)
            (by rw [Set.mem_Ioc]; rintro ⟨h1, h2⟩; linarith [hC.1])
      · have hA2 := hA
        have hB2 := hB
        have hC2 := hC
        push_neg at hA2 hB2 hC2
        have hθ0 : arctan2 (bp.2 - qp.2) (bp.1 - qp.1) ≤ 0 := by
          by_contra h
          push_neg at h
          exact absurd hmem.2 (not_le.mpr (hB2 (hA2 h)))
        have hD2 : arctan2 (bp.2 - qp.2) (bp.1 - qp.1) ≤ -(Real.pi / 2) := by
          by_contra h
          push_neg at h
          exact absurd (hC2 h) (not_lt.mpr hθ0)
        refine ⟨Quad.SE,
          by rw [if_neg hA, if_neg hB, if_neg hC, if_pos ⟨hmem.1, hD2⟩],
          ?_, ?_, ?_, iff_of_true rfl (Set.mem_Ioc.mpr ⟨hmem.1, hD2⟩)⟩
        · exact iff_of_false (by decide)
            (by rw [Set.mem_Ioc]; rintro ⟨h1, h2⟩; linarith)
        · exact iff_of_false (by decide)
            (by rw [Set.mem_Ioc]; rintro ⟨h1, h2⟩; linarith)
        · exact iff_of_false (by decide)
            (by rw [Set.mem_Ioc]; rintro ⟨h1, h2⟩; linarith)

/-- **C9.** For a body coincident with the node's center the offset vector
is zero, `arctan2 0 0 = 0`, and classification deterministically lands in
the `(−π/2, 0]` branch, returning `SW` — the error branch is not reached. -/
theorem find_quadrant_center_sw :
    arctan2 0 0 = 0 ∧ ∀ p : ℝ × ℝ, find_quadrant p p = some Quad.SW := by
  have h0 : arctan2 0 0 = 0 := by
    show Complex.arg ⟨0, 0⟩ = 0
    rw [show (⟨0, 0⟩ : ℂ) = 0 from Complex.ext rfl rfl, Complex.arg_zero]
  refine ⟨h0, fun p => ?_⟩
  have hπ := Real.pi_pos
  rw [find_quadrant_spec, sub_self, sub_self, h0,
    if_neg (by intro h; linarith [h.1]),
    if_neg (by intro h; linarith [h.1]),
    if_pos ⟨by linarith, le_refl 0⟩]

/-! ### Facts about node construction -/

theorem sum_mass_pos_pairs (l : List Body) :
    (l.map fun b => (b.m * b.pos.1, b.m * b.pos.2)).sum =
      ((l.map fun b => b.m * b.pos.1).sum,
       (l.map fun b => b.m * b.pos.2).sum) := by
  induction l with
  | nil => simp [Prod.mk_zero_zero]
  | cons a tl ih => simp [ih, Prod.mk_add_mk]

/-- **C6.** A node built from exactly one body is a leaf: no children, and
its center of mass is exactly that body's position. -/
theorem single_body_leaf (fuel : ℕ) (pos : ℝ × ℝ) (w h : ℝ) (b : Body)
    (nd : Node) (hb : buildNode fuel pos w h [b] = some nd) :
    nd.children = [] ∧ nd.cm = b.pos := by
  cases fuel with
  | zero => simp [buildNode] at hb
  | succ n =>
    simp only [buildNode] at hb
    rw [Option.some_inj] at hb
    subst hb
    simp

/-- **C5.** For every constructed node, `total_mass` is the sum of the
masses of the bodies it was built from; for a node built from two or more
bodies, `cm` is the mass-weighted average of their positions. -/
theorem node_mass_and_cm (fuel : ℕ) (pos : ℝ × ℝ) (w h : ℝ)
    (bodies : List Body) (nd : Node)
    (hb : buildNode fuel pos w h bodies = some nd) :
    nd.total_mass = (bodies.map Body.m).sum ∧
      (2 ≤ bodies.length →
        nd.cm =
          ((bodies.map fun b => b.m * b.pos.1).sum / (bodies.map Body.m).sum,
           (bodies.map fun b => b.m * b.pos.2).sum / (bodies.map Body.m).sum)) := by
  cases fuel with
  | zero => simp [buildNode] at hb
  | succ n =>
    rcases bodies with _ | ⟨a, _ | ⟨c, tl⟩⟩
    · simp only [buildNode] at hb
      rw [Option.some_inj] at hb
      subst hb
      exact ⟨by simp, by intro h2; simp at h2⟩
    · simp only [buildNode] at hb
      rw [Option.some_inj] at hb
      subst hb
      exact ⟨by simp, by intro h2; simp at h2⟩
    · simp only [buildNode] at hb
      split at hb
      · exact absurd hb (by simp)
      · split at hb
        · rw [Option.some_inj] at hb
          subst hb
          refine ⟨by simp, fun _ => ?_⟩
          rw [Node.cm_mk, sum_mass_pos_pairs]
          simp [inv_mul_eq_div]
        · exact absurd hb (by simp)

/-- Every node `buildNode` returns keeps the center, width and height it
was given. -/
theorem buildNode_shape (fuel : ℕ) (pos : ℝ × ℝ) (w h : ℝ)
    (bodies : List Body) (nd : Node)
    (hb : buildNode fuel pos w h bodies = some nd) :
    nd.pos = pos ∧ nd.w = w ∧ nd.h = h := by
  cases fuel with
  | zero => simp [buildNode] at hb
  | succ n =>
    rcases bodies with _ | ⟨a, _ | ⟨c, tl⟩⟩
    · simp only [buildNode] at hb
      rw [Option.some_inj] at hb
      subst hb
      simp
    · simp only [buildNode] at hb
      rw [Option.some_inj] at hb
      subst hb
      simp
    · simp only [buildNode] at hb
      split at hb
      · exact absurd hb (by simp)
      · split at hb
        · rw [Option.some_inj] at hb
          subst hb
          simp
        · exact absurd hb (by simp)

/-! ### Facts about the root extent -/

theorem le_foldl_max (l : List Body) (a : ℝ) :
    a ≤ l.foldl (fun acc x => max acc (vector_len x.pos)) a := by
  induction l generalizing a with
  | nil => exact le_refl a
  | cons x xs ih => exact le_trans (le_max_left _ _) (ih _)

theorem mem_foldl_max (l : List Body) (a : ℝ) {b : Body} (hmem : b ∈ l) :
    vector_len b.pos ≤ l.foldl (fun acc x => max acc (vector_len x.pos)) a := by
  induction l generalizing a with
  | nil => exact absurd hmem (List.not_mem_nil b)
  | cons x xs ih =>
    rcases List.mem_cons.mp hmem with rfl | htl
    · exact le_trans (le_max_right a (vector_len b.pos)) (le_foldl_max xs _)
    · exact ih _ htl

theorem vector_len_le_maxDist {l : List Body} {b : Body} (hmem : b ∈ l) :
    vector_len b.pos ≤ maxDist l := by
  rcases l with _ | ⟨x, xs⟩
  · exact absurd hmem (List.not_mem_nil b)
  · rcases List.mem_cons.mp hmem with rfl | htl
    · exact le_foldl_max xs _
    · exact mem_foldl_max xs _ htl

/-! ### The traversal step -/

/-- **C7.** A popped node whose center of mass coincides with the body's
position (`dist = 0`) is skipped entirely: it contributes nothing to the
accumulator and none of its children are pushed, so `size / dist` is never
evaluated with `dist = 0` and a body's own position never contributes to
its own acceleration. -/
theorem traverse_skips_self (limit eps : ℝ) (b_pos : ℝ × ℝ) (node : Node)
    (rest : List Node) (acc : ℝ × ℝ) (fuel : ℕ)
    (hd : vector_len (node.cm.1 - b_pos.1, node.cm.2 - b_pos.2) = 0) :
    traverse limit eps b_pos (fuel + 1) (node :: rest) acc =
      traverse limit eps b_pos fuel rest acc := by
  simp only [traverse]
  rw [if_pos hd]

/-- A node whose aggregate point coincides with the body, used to witness
the skip step at a concrete input. -/
def nodeSelf : Node := .mk (0, 0) 1 1 (0, 0) 1 []

theorem traverse_skips_self_witness :
    traverse 5 1000 (0, 0) 1 [nodeSelf] (0, 0) = some ((0 : ℝ), (0 : ℝ)) :=
  (traverse_skips_self 5 1000 (0, 0) nodeSelf [] (0, 0) 0
    (by simp [nodeSelf, vector_len_zero_zero, vector_len_zero])).trans (by simp [traverse])

/-- **C4.** When a popped node satisfies the acceptance criterion
`size / dist < limit` (with `size` the mean of its width and height and
`dist = |node.cm − body.pos| ≠ 0`), the traversal adds exactly the
Plummer-softened point-mass contribution — magnitude
`G · total_mass · dist / (dist² + eps²)^(3/2)` directed along
`node.cm − body.pos` — and pushes none of the node's children; otherwise
all of the node's children are pushed onto the stack (in the source's
order) and the node itself contributes nothing to the accumulator. -/
theorem traverse_acceptance_criterion :
    (∀ (limit eps : ℝ) (b_pos : ℝ × ℝ) (node : Node) (rest : List Node)
        (acc : ℝ × ℝ) (fuel : ℕ),
        vector_len (node.cm.1 - b_pos.1, node.cm.2 - b_pos.2) ≠ 0 →
        (node.w + node.h) / 2 /
            vector_len (node.cm.1 - b_pos.1, node.cm.2 - b_pos.2) < limit →
        traverse limit eps b_pos (fuel + 1) (node :: rest) acc =
          traverse limit eps b_pos fuel rest
            (acc.1 +
                big_g * node.total_mass *
                    vector_len (node.cm.1 - b_pos.1, node.cm.2 - b_pos.2) /
                    ((vector_len (node.cm.1 - b_pos.1, node.cm.2 - b_pos.2) *
                          vector_len (node.cm.1 - b_pos.1, node.cm.2 - b_pos.2) +
                        eps * eps) ^ ((3 : ℝ) / 2)) *
                  ((node.cm.1 - b_pos.1) /
                    vector_len (node.cm.1 - b_pos.1, node.cm.2 - b_pos.2)),
             acc.2 +
                big_g * node.total_mass *
                    vector_len (node.cm.1 - b_pos.1, node.cm.2 - b_pos.2) /
                    ((vector_len (node.cm.1 - b_pos.1, node.cm.2 - b_pos.2) *
                          vector_len (node.cm.1 - b_pos.1, node.cm.2 - b_pos.2) +
                        eps * eps) ^ ((3 : ℝ) / 2)) *
                  ((node.cm.2 - b_pos.2) /
                    vector_len (node.cm.1 - b_pos.1, node.cm.2 - b_pos.2)))) ∧
      (∀ (limit eps : ℝ) (b_pos : ℝ × ℝ) (node : Node) (rest : List Node)
          (acc : ℝ × ℝ) (fuel : ℕ),
          vector_len (node.cm.1 - b_pos.1, node.cm.2 - b_pos.2) ≠ 0 →
          ¬(node.w + node.h) / 2 /
              vector_len (node.cm.1 - b_pos.1, node.cm.2 - b_pos.2) < limit →
          traverse limit eps b_pos (fuel + 1) (node :: rest) acc =
            traverse limit eps b_pos fuel
              (node.children.reverse ++ rest) acc) := by
  constructor
  · intro limit eps b_pos node rest acc fuel hd hlim
    have hvec : (⟨node.cm.1 - b_pos.1, node.cm.2 - b_pos.2⟩ : ℂ) ≠ 0 := by
      intro hz
      apply hd
      rw [vector_len_eq_zero_iff]
      exact ⟨congrArg Complex.re hz, congrArg Complex.im hz⟩
    have hcos : Real.cos (arctan2 (node.cm.2 - b_pos.2) (node.cm.1 - b_pos.1)) =
        (node.cm.1 - b_pos.1) /
          vector_len (node.cm.1 - b_pos.1, node.cm.2 - b_pos.2) := by
      rw [vector_len_eq_abs]
      exact Complex.cos_arg hvec
    have hsin : Real.sin (arctan2 (node.cm.2 - b_pos.2) (node.cm.1 - b_pos.1)) =
        (node.cm.2 - b_pos.2) /
          vector_len (node.cm.1 - b_pos.1, node.cm.2 - b_pos.2) := by
      rw [vector_len_eq_abs]
      exact Complex.sin_arg _
    simp only [traverse]
    rw [if_neg hd, if_pos hlim, hcos, hsin]
    exact congrArg (traverse limit eps b_pos fuel rest)
      (by rw [Prod.mk.injEq]; exact ⟨by ring, by ring⟩)
  · intro limit eps b_pos node rest acc fuel hd hlim
    simp only [traverse]
    rw [if_neg hd, if_neg hlim]

/-- A far, accepted point-mass node, used to witness the acceptance step at
a concrete input. -/
def nodeFar : Node := .mk (0, 0) 0 0 (1, 0) 1 []

/-- A too-large node failing the acceptance test (`size/dist = 20 ≥ 5`),
with one child, used to witness the descend step at a concrete input. -/
def nodeNear : Node := .mk (0, 0) 20 20 (1, 0) 1 [nodeFar]

theorem traverse_acceptance_criterion_witness :
    (traverse 5 1000 (0, 0) 1 [nodeFar] (0, 0) =
      traverse 5 1000 (0, 0) 0 []
        ((0 : ℝ) +
            big_g * nodeFar.total_mass *
                vector_len (nodeFar.cm.1 - 0, nodeFar.cm.2 - 0) /
                ((vector_len (nodeFar.cm.1 - 0, nodeFar.cm.2 - 0) *
                      vector_len (nodeFar.cm.1 - 0, nodeFar.cm.2 - 0) +
                    1000 * 1000) ^ ((3 : ℝ) / 2)) *
              ((nodeFar.cm.1 - 0) /
                vector_len (nodeFar.cm.1 - 0, nodeFar.cm.2 - 0)),
         (0 : ℝ) +
            big_g * nodeFar.total_mass *
                vector_len (nodeFar.cm.1 - 0, nodeFar.cm.2 - 0) /
                ((vector_len (nodeFar.cm.1 - 0, nodeFar.cm.2 - 0) *
                      vector_len (nodeFar.cm.1 - 0, nodeFar.cm.2 - 0) +
                    1000 * 1000) ^ ((3 : ℝ) / 2)) *
              ((nodeFar.cm.2 - 0) /
                vector_len (nodeFar.cm.1 - 0, nodeFar.cm.2 - 0)))) ∧
      traverse 5 1000 (0, 0) 1 [nodeNear] (0, 0) =
        traverse 5 1000 (0, 0) 0 (nodeNear.children.reverse ++ []) (0, 0) :=
  ⟨traverse_acceptance_criterion.1 5 1000 (0, 0) nodeFar [] (0, 0) 0
      (by simp [nodeFar, vector_len_one_zero])
      (by simp [nodeFar, vector_len_one_zero]),
    traverse_acceptance_criterion.2 5 1000 (0, 0) nodeNear [] (0, 0) 0
      (by simp [nodeNear, vector_len_one_zero])
      (by norm_num [nodeNear, vector_len_one_zero])⟩

/-- **C10.** A node built from an empty body list has `total_mass = 0` and
no children; and any popped node with `total_mass = 0` and no children
leaves the accumulator and the remaining stack unchanged (its accepted
contribution has magnitude `G·0·dist/(dist²+eps²)^(3/2) = 0` and it has no
children to push), so zero-mass nodes never change any body's
acceleration. -/
theorem zero_mass_node_no_effect :
    (∀ (fuel : ℕ) (pos : ℝ × ℝ) (w h : ℝ) (nd : Node),
        buildNode fuel pos w h [] = some nd →
          nd.total_mass = 0 ∧ nd.children = []) ∧
      (∀ (limit eps : ℝ) (b_pos : ℝ × ℝ) (node : Node) (rest : List Node)
          (acc : ℝ × ℝ) (fuel : ℕ),
          node.total_mass = 0 → node.children = [] →
            traverse limit eps b_pos (fuel + 1) (node :: rest) acc =
              traverse limit eps b_pos fuel rest acc) := by
  constructor
  · intro fuel pos w h nd hb
    cases fuel with
    | zero => simp [buildNode] at hb
    | succ n =>
      simp only [buildNode] at hb
      rw [Option.some_inj] at hb
      subst hb
      simp
  · intro limit eps b_pos node rest acc fuel hmass hchild
    simp only [traverse]
    by_cases hd : vector_len (node.cm.1 - b_pos.1, node.cm.2 - b_pos.2) = 0
    · rw [if_pos hd]
    · rw [if_neg hd]
      by_cases hlim : (node.w + node.h) / 2 /
          vector_len (node.cm.1 - b_pos.1, node.cm.2 - b_pos.2) < limit
      · rw [if_pos hlim, hmass]
        simp
      · rw [if_neg hlim, hchild]
        simp

/-- A zero-mass childless node such as construction creates for an empty
quadrant, used to witness the zero-mass step at a concrete input. -/
def nodeEmpty : Node := .mk (3, 0) 1 1 (0, 0) 0 []

theorem zero_mass_node_no_effect_witness :
    (buildNode 1 ((3 : ℝ), (0 : ℝ)) 1 1 [] = some nodeEmpty →
        nodeEmpty.total_mass = 0 ∧ nodeEmpty.children = []) ∧
      traverse 5 1000 (1, 0) 1 [nodeEmpty] (0, 0) =
        traverse 5 1000 (1, 0) 0 [] (0, 0) :=
  ⟨zero_mass_node_no_effect.1 1 (3, 0) 1 1 nodeEmpty,
    zero_mass_node_no_effect.2 5 1000 (1, 0) nodeEmpty [] (0, 0) 0
      (by simp [nodeEmpty]) (by simp [nodeEmpty])⟩

/-! ### A concrete two-body construction -/

/-- A unit-mass body in the northeast quadrant of the origin. -/
def b1 : Body := ⟨(1, 1), (0, 0), 1⟩

/-- A unit-mass body in the southeast-classified quadrant of the origin. -/
def b2 : Body := ⟨(-1, -1), (0, 0), 1⟩

theorem classifyAll_example :
    classifyAll (0, 0) [b1, b2] = some [(Quad.NE, b1), (Quad.SE, b2)] := by
  have h1 : find_quadrant b1.pos (0 : ℝ × ℝ) = some Quad.NE :=
    find_quadrant_NE_of (by norm_num [b1]) (by norm_num [b1])
  have h2 : find_quadrant b2.pos (0 : ℝ × ℝ) = some Quad.SE :=
    find_quadrant_SE_of (by norm_num [b2]) (by norm_num [b2])
  simp [classifyAll, h1, h2]

def exNW : Node := .mk (-1, 1) 1 1 (0, 0) 0 []

def exNE : Node := .mk (1, 1) 1 1 (1, 1) 1 []

def exSW : Node := .mk (-1, -1) 1 1 (0, 0) 0 []

def exSE : Node := .mk (1, -1) 1 1 (-1, -1) 1 []

/-- The node the source builds from `[b1, b2]` on the square of half-extent
2 centered at the origin: note it has four children, two of them built from
empty body lists. -/
def exNode : Node := .mk (0, 0) 2 2 (0, 0) 2 [exNW, exNE, exSW, exSE]

theorem buildNode_nil_eq (fuel : ℕ) (pos : ℝ × ℝ) (w h : ℝ) :
    buildNode (fuel + 1) pos w h [] = some (.mk pos w h (0, 0) 0 []) := by
  simp [buildNode]

theorem buildNode_single_eq (fuel : ℕ) (pos : ℝ × ℝ) (w h : ℝ) (b : Body) :
    buildNode (fuel + 1) pos w h [b] = some (.mk pos w h b.pos b.m []) := by
  simp [buildNode]

theorem buildNode_example :
    buildNode 2 ((0 : ℝ), (0 : ℝ)) 2 2 [b1, b2] = some exNode := by
  have hnil : ∀ (pos : ℝ × ℝ) (w h : ℝ),
      buildNode 1 pos w h [] = some (.mk pos w h (0, 0) 0 []) :=
    fun pos w h => buildNode_nil_eq 0 pos w h
  have hsingle : ∀ (pos : ℝ × ℝ) (w h : ℝ) (b : Body),
      buildNode 1 pos w h [b] = some (.mk pos w h b.pos b.m []) :=
    fun pos w h b => buildNode_single_eq 0 pos w h b
  have gNW : (([(Quad.NE, b1), (Quad.SE, b2)].filter
      fun p => p.1 = Quad.NW).map Prod.snd) = [] := rfl
  have gNE : (([(Quad.NE, b1), (Quad.SE, b2)].filter
      fun p => p.1 = Quad.NE).map Prod.snd) = [b1] := rfl
  have gSW : (([(Quad.NE, b1), (Quad.SE, b2)].filter
      fun p => p.1 = Quad.SW).map Prod.snd) = [] := rfl
  have gSE : (([(Quad.NE, b1), (Quad.SE, b2)].filter
      fun p => p.1 = Quad.SE).map Prod.snd) = [b2] := rfl
  show buildNode (1 + 1) ((0 : ℝ), (0 : ℝ)) 2 2 [b1, b2] = some exNode
  simp only [buildNode, classifyAll_example, gNW, gNE, gSW, gSE,
    hnil, hsingle]
  norm_num [exNode, exNW, exNE, exSW, exSE, b1, b2, Node.mk.injEq,
    Prod.mk.injEq]

/-- **C2** (failing on the code): `_create_child_nodes` iterates over all
four dictionary keys and calls `_create_node` for each, so a node built
from two bodies that occupy only two quadrants still gets four children —
two of them built from empty body lists (mass 0): the child list of the
node built from `[b1, b2]` has length 4 with masses `[0, 1, 0, 1]`, and
its NW child is exactly the node built from the empty list. -/
theorem create_child_nodes_all_four_quadrants :
    buildNode 2 ((0 : ℝ), (0 : ℝ)) 2 2 [b1, b2] = some exNode ∧
      exNode.children.length = 4 ∧
      exNode.children.map Node.total_mass = [0, 1, 0, 1] ∧
      buildNode 1 ((-1 : ℝ), (1 : ℝ)) 1 1 [] = some exNW ∧
      exNW ∈ exNode.children :=
  ⟨buildNode_example, rfl,
    by simp [exNode, exNW, exNE, exSW, exSE],
    buildNode_nil_eq 0 (-1, 1) 1 1,
    by simp [exNode]⟩

theorem node_mass_and_cm_witness :
    exNode.total_mass = ([b1, b2].map Body.m).sum ∧
      exNode.cm =
        (([b1, b2].map fun b => b.m * b.pos.1).sum / ([b1, b2].map Body.m).sum,
         ([b1, b2].map fun b => b.m * b.pos.2).sum /
           ([b1, b2].map Body.m).sum) := by
  have h := node_mass_and_cm 2 (0, 0) 2 2 [b1, b2] exNode buildNode_example
  exact ⟨h.1, h.2 (by norm_num)⟩

theorem single_body_leaf_witness :
    (Node.mk ((0 : ℝ), (0 : ℝ)) 1 1 b1.pos b1.m []).children = [] ∧
      (Node.mk ((0 : ℝ), (0 : ℝ)) 1 1 b1.pos b1.m []).cm = b1.pos :=
  single_body_leaf 1 (0, 0) 1 1 b1 _ (buildNode_single_eq 0 (0, 0) 1 1 b1)

/-! ### The quadtree constructor -/

/-- **C8.** The constructor places the root at the origin with width and
height both equal to the maximum Euclidean distance from the origin to any
body, so every body's coordinates are bounded by the root's extent. -/
theorem quadtree_root_geometry (bodies : List Body) (dt limit eps : ℝ)
    (fuel : ℕ) (qt : QuadTree)
    (hq : buildQuadTree bodies dt limit eps fuel = some qt) :
    qt.root.pos = (0, 0) ∧ qt.root.w = maxDist bodies ∧
      qt.root.h = maxDist bodies ∧
      ∀ b ∈ bodies, |b.pos.1| ≤ qt.root.w ∧ |b.pos.2| ≤ qt.root.h := by
  rcases bodies with _ | ⟨x, xs⟩
  · simp [buildQuadTree] at hq
  · simp only [buildQuadTree] at hq
    rw [Option.map_eq_some'] at hq
    obtain ⟨root, hroot, hqt⟩ := hq
    obtain ⟨hp, hw, hh⟩ := buildNode_shape fuel (0, 0) (maxDist (x :: xs))
      (maxDist (x :: xs)) (x :: xs) root hroot
    subst hqt
    refine ⟨hp, hw, hh, fun b hmem => ⟨?_, ?_⟩⟩
    · rw [hw]
      exact (abs_fst_le_vector_len b.pos).trans (vector_len_le_maxDist hmem)
    · rw [hh]
      exact (abs_snd_le_vector_len b.pos).trans (vector_len_le_maxDist hmem)

/-! ### A concrete one-body simulation scenario -/

/-- A unit-mass body at `(1, 0)` moving east with unit speed. -/
def bA : Body := ⟨(1, 0), (1, 0), 1⟩

/-- The root node `QuadTree.__init__` builds from `[bA]`. -/
def rootA : Node := .mk (0, 0) 1 1 (1, 0) 1 []

def qtEx : QuadTree := ⟨1, 5, 1000, [bA], rootA⟩

/-- `bA` after one step: acceleration is zero (its own leaf is skipped), so
it drifts by its velocity. -/
def bA2 : Body := ⟨(2, 0), (1, 0), 1⟩

/-- The tree state after one `step_forward`: same stale root. -/
def qtEx1 : QuadTree := ⟨1, 5, 1000, [bA2], rootA⟩

/-- The root a rebuild from the moved body would produce. -/
def rootA2 : Node := .mk (0, 0) 2 2 (2, 0) 1 []

def qtEx2 : QuadTree := ⟨1, 5, 1000, [bA2], rootA2⟩

theorem buildQuadTree_ex : buildQuadTree [bA] 1 5 1000 2 = some qtEx := by
  have hm : maxDist [bA] = 1 := by
    simp only [maxDist, List.foldl_nil, bA]
    exact vector_len_one_zero
  simp only [buildQuadTree, hm]
  have hs : buildNode 2 ((0 : ℝ), (0 : ℝ)) 1 1 [bA] =
      some (.mk (0, 0) 1 1 bA.pos bA.m []) :=
    buildNode_single_eq 1 (0, 0) 1 1 bA
  rw [hs]
  simp [qtEx, rootA, bA]

theorem quadtree_root_geometry_witness :
    qtEx.root.pos = (0, 0) ∧ qtEx.root.w = maxDist [bA] ∧
      qtEx.root.h = maxDist [bA] ∧
      |bA.pos.1| ≤ qtEx.root.w ∧ |bA.pos.2| ≤ qtEx.root.h := by
  have h := quadtree_root_geometry [bA] 1 5 1000 2 qtEx buildQuadTree_ex
  exact ⟨h.1, h.2.1, h.2.2.1, h.2.2.2 bA (List.mem_singleton.mpr rfl)⟩

theorem traverse_ex :
    traverse 5 1000 bA.pos 2 [rootA] (0, 0) = some ((0 : ℝ), (0 : ℝ)) := by
  show traverse 5 1000 bA.pos (1 + 1) [rootA] (0, 0) = _
  simp only [traverse]
  rw [if_pos (by simp [rootA, bA, vector_len_zero])]

theorem stepBodies_ex :
    stepBodies eulerUpdate 5 1000 rootA 1 0 2 [bA] = some [bA2] := by
  simp only [stepBodies, traverse_ex]
  norm_num [eulerUpdate, bA, bA2, Prod.mk.injEq]

theorem step_forward_ex : step_forward eulerUpdate 2 qtEx 0 = some qtEx1 := by
  simp only [step_forward, qtEx]
  rw [stepBodies_ex]
  simp [qtEx1]

theorem buildQuadTree_ex2 : buildQuadTree [bA2] 1 5 1000 2 = some qtEx2 := by
  have hm : maxDist [bA2] = 2 := by
    simp only [maxDist, List.foldl_nil, bA2]
    exact vector_len_two_zero
  simp only [buildQuadTree, hm]
  have hs : buildNode 2 ((0 : ℝ), (0 : ℝ)) 2 2 [bA2] =
      some (.mk (0, 0) 2 2 bA2.pos bA2.m []) :=
    buildNode_single_eq 1 (0, 0) 2 2 bA2
  rw [hs]
  simp [qtEx2, rootA2, bA2]

/-- **C1** (amended): every call to `step_forward` reuses the root node
built once at `QuadTree` construction — the tree, the time step and the
parameters are all preserved unchanged; the spatial partition is never
refreshed. -/
theorem step_forward_preserves_root (upd : Body → ℝ × ℝ → ℝ → ℕ → Body)
    (fuel : ℕ) (qt : QuadTree) (n : ℕ) (qt2 : QuadTree)
    (hs : step_forward upd fuel qt n = some qt2) :
    qt2.root = qt.root ∧ qt2.dt = qt.dt ∧ qt2.limit = qt.limit ∧
      qt2.eps = qt.eps := by
  simp only [step_forward] at hs
  rw [Option.map_eq_some'] at hs
  obtain ⟨bs, _, hqt⟩ := hs
  subst hqt
  exact ⟨rfl, rfl, rfl, rfl⟩

theorem step_forward_preserves_root_witness :
    qtEx1.root = qtEx.root ∧ qtEx1.dt = qtEx.dt ∧ qtEx1.limit = qtEx.limit ∧
      qtEx1.eps = qtEx.eps :=
  step_forward_preserves_root eulerUpdate 2 qtEx 0 qtEx1 step_forward_ex

/-- **C1** (failing as stated): after one step the single body has moved
from `(1, 0)` to `(2, 0)`, yet the tree held for the next `step_forward`
call is still the construction-time root with `cm = (1, 0)`; a tree
rebuilt from the current positions would have `cm = (2, 0)`.  The root used
in step `n` reflects the positions at construction time, not at the start
of step `n`. -/
theorem stale_tree_counterexample :
    buildQuadTree [bA] 1 5 1000 2 = some qtEx ∧
      step_forward eulerUpdate 2 qtEx 0 = some qtEx1 ∧
      qtEx1.root = qtEx.root ∧
      qtEx1.bodies = [bA2] ∧
      buildQuadTree qtEx1.bodies 1 5 1000 2 = some qtEx2 ∧
      qtEx2.root.cm ≠ qtEx1.root.cm :=
  ⟨buildQuadTree_ex, step_forward_ex, rfl, rfl, buildQuadTree_ex2,
    by norm_num [qtEx2, qtEx1, rootA2, rootA, Prod.mk.injEq]⟩

end NBody
